import Mathlib

set_option maxRecDepth 80000
set_option maxHeartbeats 1000000

/-!
Verification of the CloudFront signed-cookie / signed-URL generator
(`hacks/aws-s3-art-srv-enterprise-signed-cookie/generate_cookie.py`).

The repository source contains the credential assembler
(`CloudFrontUtil.generate_signed_cookies`, `generate_presigned_url`).
The inner components it calls — botocore's `CloudFrontSigner.build_policy`
and `_url_b64encode`, and the `rsa` package's `rsa.sign` — are external
library code not present in the repository; they are modelled here from the
specification (each such definition carries a `Modelled from the spec:`
doc comment).  Byte sequences are `List Nat` with every element `< 256`;
machine words are `Nat` reduced `% 2 ^ 32` where overflow matters.
-/

/-- The specification's error taxonomy (§7): `InvalidResource`,
`InvalidKey`, `SigningFailure`. -/
inductive Err where
  | invalidResource : Err
  | invalidKey : Err
  | signingFailure : Err
deriving DecidableEq, Repr

/-- An absolute expiry instant, as Python's `datetime` carries it:
whole seconds since the Unix epoch plus a sub-second microsecond part. -/
structure Expiry where
  seconds : Nat
  micros : Nat
deriving DecidableEq, Repr

/-- RSA private-key material as loaded by `rsa.PrivateKey.load_pkcs1`:
modulus `n`, public exponent `e`, private exponent `d` and the primes. -/
structure RSAKey where
  n : Nat
  e : Nat
  d : Nat
  p : Nat
  q : Nat
deriving DecidableEq, Repr

/-- A dynamically-typed Python return value: either a plain string or a
string-keyed dictionary of strings (insertion-ordered, as CPython dicts). -/
inductive PyVal where
  | str : String → PyVal
  | dict : List (String × String) → PyVal
deriving DecidableEq, Repr

/-- Big-endian conversion of a natural number to exactly `k` bytes
(`rsa.transform.int2bytes(v, k)`); high bits beyond `k` bytes are dropped,
which never happens on the values the program feeds it. -/
def i2osp : Nat → Nat → List Nat
  | 0, _ => []
  | k + 1, v => i2osp k (v / 256) ++ [v % 256]

/-- Big-endian conversion of a byte sequence to a natural number
(`rsa.transform.bytes2int`, i.e. `int.from_bytes(raw, 'big')`). -/
def os2ip : List Nat → Nat
  | [] => 0
  | b :: rest => b * 256 ^ rest.length + os2ip rest

/-- Fuel-driven byte count; the fuel only bounds the recursion depth. -/
def byteSizeAux : Nat → Nat → Nat
  | 0, _ => 1
  | fuel + 1, n => if n < 256 then 1 else byteSizeAux fuel (n / 256) + 1

/-- Number of bytes needed to hold `n` (`rsa.common.byte_size`;
`byte_size 0 = 1`). -/
def byteSize (n : Nat) : Nat :=
  byteSizeAux n n

/-- Fuel-driven binary modular exponentiation; the fuel only bounds the
recursion depth (any fuel `≥ log2 e + 1` gives the same result). -/
def powModAux : Nat → Nat → Nat → Nat → Nat
  | 0, _, _, n => 1 % n
  | fuel + 1, b, e, n =>
    if e = 0 then 1 % n
    else
      let r := powModAux fuel (b * b % n) (e / 2) n
      if e % 2 = 1 then r * (b % n) % n else r

/-- Modular exponentiation `b ^ e mod n`, as Python's `pow(b, e, n)`
used by `rsa.core.encrypt_int`. -/
def powMod (b e n : Nat) : Nat :=
  powModAux e b e n

/-! ## SHA-1 (FIPS 180-4), the hash `rsa.sign` is invoked with -/

/-- Left-rotate a 32-bit word by `s` places (for `x < 2 ^ 32`, `s ≤ 32`). -/
def rotl (s x : Nat) : Nat :=
  (x * 2 ^ s + x / 2 ^ (32 - s)) % 2 ^ 32

/-- SHA-1 round function `f_t`. -/
def shaF (t b c d : Nat) : Nat :=
  if t < 20 then (b &&& c) ||| ((4294967295 - b) &&& d)
  else if t < 40 then b ^^^ c ^^^ d
  else if t < 60 then (b &&& c) ||| (b &&& d) ||| (c &&& d)
  else b ^^^ c ^^^ d

/-- SHA-1 round constant `K_t`. -/
def shaK (t : Nat) : Nat :=
  if t < 20 then 1518500249
  else if t < 40 then 1859775393
  else if t < 60 then 2400959708
  else 3395469782

/-- Pack big-endian bytes into 32-bit words, four at a time. -/
def wordsOfBytes : List Nat → List Nat
  | a :: b :: c :: d :: rest =>
    (a * 16777216 + b * 65536 + c * 256 + d) :: wordsOfBytes rest
  | _ => []

/-- Extend the message schedule; `acc` holds the words produced so far in
reverse order, so `acc[2], acc[7], acc[13], acc[15]` are
`w[t-3], w[t-8], w[t-14], w[t-16]`. -/
def schedRev : Nat → List Nat → List Nat
  | 0, acc => acc
  | steps + 1, acc =>
    schedRev steps
      (rotl 1 (acc.getD 2 0 ^^^ acc.getD 7 0 ^^^ acc.getD 13 0 ^^^ acc.getD 15 0) :: acc)

/-- The 80 SHA-1 rounds over the schedule words. -/
def roundsAux : Nat → List Nat → Nat × Nat × Nat × Nat × Nat → Nat × Nat × Nat × Nat × Nat
  | _, [], st => st
  | t, w :: ws, (a, b, c, d, e) =>
    roundsAux (t + 1) ws
      ((rotl 5 a + shaF t b c d + e + w + shaK t) % 2 ^ 32, a, rotl 30 b, c, d)

/-- One SHA-1 compression step over a 64-byte block. -/
def sha1Compress (h : Nat × Nat × Nat × Nat × Nat) (block : List Nat) :
    Nat × Nat × Nat × Nat × Nat :=
  let w80 := (schedRev 64 (wordsOfBytes block).reverse).reverse
  match h with
  | (h0, h1, h2, h3, h4) =>
    match roundsAux 0 w80 (h0, h1, h2, h3, h4) with
    | (a, b, c, d, e) =>
      ((h0 + a) % 2 ^ 32, (h1 + b) % 2 ^ 32, (h2 + c) % 2 ^ 32,
       (h3 + d) % 2 ^ 32, (h4 + e) % 2 ^ 32)

/-- Split a byte list into 64-byte blocks; the fuel only bounds the
recursion depth (the list length is always enough fuel). -/
def chunks64Aux : Nat → List Nat → List (List Nat)
  | 0, _ => []
  | _, [] => []
  | fuel + 1, l => l.take 64 :: chunks64Aux fuel (l.drop 64)

/-- SHA-1 message padding: `0x80`, zeros to 56 mod 64, then the bit length
as 8 big-endian bytes. -/
def sha1Pad (msg : List Nat) : List Nat :=
  msg ++ [128] ++ List.replicate ((119 - msg.length % 64) % 64) 0 ++
    i2osp 8 (8 * msg.length)

/-- SHA-1 digest of a byte sequence: 20 bytes. -/
def sha1 (msg : List Nat) : List Nat :=
  let padded := sha1Pad msg
  let blocks := chunks64Aux padded.length padded
  let hh := blocks.foldl sha1Compress
    (1732584193, 4023233417, 2562383102, 271733878, 3285377520)
  i2osp 4 hh.1 ++ i2osp 4 hh.2.1 ++ i2osp 4 hh.2.2.1 ++
    i2osp 4 hh.2.2.2.1 ++ i2osp 4 hh.2.2.2.2

/-! ## Base64 and the CloudFront transport-safe encoder -/

/-- The standard base64 alphabet `A-Z a-z 0-9 + /`, as byte values. -/
def stdAlphabet : List Nat :=
  [65, 66, 67, 68, 69, 70, 71, 72, 73, 74, 75, 76, 77, 78, 79, 80, 81, 82,
   83, 84, 85, 86, 87, 88, 89, 90,
   97, 98, 99, 100, 101, 102, 103, 104, 105, 106, 107, 108, 109, 110, 111,
   112, 113, 114, 115, 116, 117, 118, 119, 120, 121, 122,
   48, 49, 50, 51, 52, 53, 54, 55, 56, 57, 43, 47]

/-- Alphabet lookup for a sextet value. -/
def alph (x : Nat) : Nat :=
  stdAlphabet.getD x 65

/-- Inverse alphabet lookup (index of a byte in the alphabet). -/
def alphInv (c : Nat) : Nat :=
  stdAlphabet.indexOf c

/-- Standard base64 encoding of a byte sequence, with `=` (byte 61)
padding, as `base64.b64encode` produces (RFC 4648). -/
def b64encode : List Nat → List Nat
  | [] => []
  | [a] => [alph (a / 4), alph (a % 4 * 16), 61, 61]
  | [a, b] => [alph (a / 4), alph (a % 4 * 16 + b / 16), alph (b % 16 * 4), 61]
  | a :: b :: c :: rest =>
    alph (a / 4) :: alph (a % 4 * 16 + b / 16) :: alph (b % 16 * 4 + c / 64) ::
      alph (c % 64) :: b64encode rest

/-- Byte-wise substitution `+` (43) → `-` (45); a single-byte
`bytes.replace` is exactly an element-wise map. -/
def swapPlus (c : Nat) : Nat :=
  if c = 43 then 45 else c

/-- Byte-wise substitution `=` (61) → `_` (95). -/
def swapPad (c : Nat) : Nat :=
  if c = 61 then 95 else c

/-- Byte-wise substitution `/` (47) → `~` (126). -/
def swapSlash (c : Nat) : Nat :=
  if c = 47 then 126 else c

/-- Modelled from the spec: botocore's `CloudFrontSigner._url_b64encode`
(not part of this repository's sources) — standard base64 followed by the
three substitutions `+`→`-`, `=`→`_`, `/`→`~` (§4.1). -/
def url_b64encode (data : List Nat) : List Nat :=
  (((b64encode data).map swapPlus).map swapPad).map swapSlash

/-- The three substitutions as one composed byte map. -/
def sub3 (c : Nat) : Nat :=
  swapSlash (swapPad (swapPlus c))

/-- Inverse of `sub3` on the encoder's output alphabet:
`-`→`+`, `_`→`=`, `~`→`/`. -/
def sub3Inv (c : Nat) : Nat :=
  if c = 45 then 43 else if c = 95 then 61 else if c = 126 then 47 else c

/-- Standard base64 decoding of well-formed encoder output
(4-byte groups, `=` padding only at the end). -/
def b64decode : List Nat → List Nat
  | a :: b :: c :: d :: rest =>
    let v1 := alphInv a
    let v2 := alphInv b
    if d = 61 then
      if c = 61 then [v1 * 4 + v2 / 16]
      else [v1 * 4 + v2 / 16, v2 % 16 * 16 + alphInv c / 4]
    else
      (v1 * 4 + v2 / 16) :: (v2 % 16 * 16 + alphInv c / 4) ::
        (alphInv c % 4 * 64 + alphInv d) :: b64decode rest
  | _ => []

/-- Decoder for the transport-safe encoding: undo the three substitutions,
then standard base64 decoding.  (Issuance needs no decoder; this is the
spec-side notion of "the bytes that decode from the policy cookie".) -/
def urlB64decode (data : List Nat) : List Nat :=
  b64decode (data.map sub3Inv)

/-! ## UTF-8 encoding and ASCII decoding of strings -/

/-- UTF-8 byte encoding of one Unicode scalar value, as Python's
`str.encode('utf8')` emits it. -/
def utf8Char (c : Char) : List Nat :=
  let n := c.toNat
  if n < 128 then [n]
  else if n < 2048 then [192 + n / 64, 128 + n % 64]
  else if n < 65536 then [224 + n / 4096, 128 + n / 64 % 64, 128 + n % 64]
  else [240 + n / 262144, 128 + n / 4096 % 64, 128 + n / 64 % 64, 128 + n % 64]

/-- UTF-8 encoding of a character list. -/
def utf8Chars : List Char → List Nat
  | [] => []
  | c :: cs => utf8Char c ++ utf8Chars cs

/-- UTF-8 encoding of a string (`str.encode('utf8')`). -/
def utf8Encode (s : String) : List Nat :=
  utf8Chars s.data

/-- Decode a byte sequence that is known to be ASCII into a string
(`bytes.decode('utf8')` on base64-alphabet output). -/
def asciiDecode (l : List Nat) : String :=
  String.mk (l.map Char.ofNat)

/-! ## Policy builder (botocore `CloudFrontSigner.build_policy`) -/

/-- Whole epoch seconds of an expiry instant:
`int(datetime2timestamp(date_less_than))` truncates the sub-second part. -/
def epochSeconds (e : Expiry) : Nat :=
  e.seconds + e.micros / 1000000

/-- The canonical policy statement text for one resource and one
"date less than" epoch-second expiry, with fixed field order and compact
separators; the braces are written as `\x7b`/`\x7d` escapes. -/
def policy_json (resource : String) (expire_at : Expiry) : String :=
  "\x7b\"Statement\":[\x7b\"Resource\":\"" ++ resource ++
    "\",\"Condition\":\x7b\"DateLessThan\":\x7b\"AWS:EpochTime\":" ++
    toString (epochSeconds expire_at) ++ "\x7d\x7d\x7d]\x7d"

/-- Modelled from the spec: botocore's `CloudFrontSigner.build_policy`
(not part of this repository's sources) — the canonical single-condition
statement of §4.2, failing with `InvalidResource` on an empty resource
string (§4.2, §8 Example 4).  Syntactic URL validity beyond non-emptiness
is not modelled. -/
def build_policy (resource : String) (expire_at : Expiry) : Except Err String :=
  if resource = "" then .error .invalidResource
  else .ok (policy_json resource expire_at)

/-! ## Signer (`rsa.sign` with `hash_method='SHA-1'`) -/

/-- The ASN.1 `DigestInfo` prefix for SHA-1
(`rsa.pkcs1.HASH_ASN1['SHA-1']`). -/
def sha1ASN1 : List Nat :=
  [48, 33, 48, 9, 6, 5, 43, 14, 3, 2, 26, 5, 0, 4, 20]

/-- EMSA-PKCS1-v1_5 padding for signing
(`rsa.pkcs1._pad_for_signing`): `00 01 FF..FF 00 ‖ cleartext`,
filling to `k` bytes. -/
def padForSigning (cleartext : List Nat) (k : Nat) : List Nat :=
  [0, 1] ++ List.replicate (k - cleartext.length - 3) 255 ++ [0] ++ cleartext

/-- Modelled from the spec: `rsa.sign_hash` (the `rsa` package is not part
of this repository's sources) — prepend the ASN.1 SHA-1 prefix, pad with
EMSA-PKCS1-v1_5, and apply the private-key operation `m ^ d mod n`;
fails with `InvalidKey` when the modulus is too small for the padded
digest (§4.3).  The library's random blinding is output-equivalent to the
bare private-key operation and is omitted. -/
def sign_hash (key : RSAKey) (hashValue : List Nat) : Except Err (List Nat) :=
  let cleartext := sha1ASN1 ++ hashValue
  let k := byteSize key.n
  if k < cleartext.length + 11 then .error .invalidKey
  else .ok (i2osp k (powMod (os2ip (padForSigning cleartext k)) key.d key.n))

/-- Modelled from the spec: `rsa.sign(message, priv_key, 'SHA-1')` —
hash the message with SHA-1, then sign the digest (§4.3). -/
def rsa_sign (key : RSAKey) (message : List Nat) : Except Err (List Nat) :=
  sign_hash key (sha1 message)

/-- The padded digest of a message as a number (the value the private-key
operation is applied to inside `rsa_sign`). -/
def emOf (key : RSAKey) (message : List Nat) : Nat :=
  os2ip (padForSigning (sha1ASN1 ++ sha1 message) (byteSize key.n))

/-! ## Credential assembler (repository source `generate_cookie.py`) -/

/-- `CloudFrontUtil.generate_signed_cookies` (source lines 41–51):
build the policy, UTF-8 encode it, encode policy and signature through the
transport-safe encoder, and return the three-entry cookie mapping; a
raised inner error propagates (modelled by the `Except` matches). -/
def generate_signed_cookies (key : RSAKey) (key_id : String) (url : String)
    (expire_at : Expiry) : Except Err (List (String × String)) :=
  match build_policy url expire_at with
  | .error ε => .error ε
  | .ok policyStr =>
    let policy := utf8Encode policyStr
    let policy_64 := asciiDecode (url_b64encode policy)
    match rsa_sign key policy with
    | .error ε => .error ε
    | .ok signature =>
      let signature_64 := asciiDecode (url_b64encode signature)
      .ok [("CloudFront-Policy", policy_64),
           ("CloudFront-Signature", signature_64),
           ("CloudFront-Key-Pair-Id", key_id)]

/-- `generate_signed_cookies` as the dynamically-typed Python callable:
despite the `-> str` annotation in the source, the body returns a dict
literal, modelled by wrapping the mapping in `PyVal.dict`. -/
def generate_signed_cookies_py (key : RSAKey) (key_id : String) (url : String)
    (expire_at : Expiry) : Except Err PyVal :=
  match generate_signed_cookies key key_id url expire_at with
  | .error ε => .error ε
  | .ok m => .ok (.dict m)

/-- Modelled from the spec: botocore's
`CloudFrontSigner.generate_presigned_url(url, date_less_than=expire_at)`
(not part of this repository's sources), as called by
`CloudFrontUtil.generate_presigned_url` (source lines 36–39).  The canned
form signs the canonical policy for the exact URL and appends
`Expires`, `Signature` and `Key-Pair-Id` query parameters — no `Policy`
parameter (§4.4 step 3, §6). -/
def generate_presigned_url (key : RSAKey) (key_id : String) (url : String)
    (expire_at : Expiry) : Except Err String :=
  match build_policy url expire_at with
  | .error ε => .error ε
  | .ok policyStr =>
    match rsa_sign key (utf8Encode policyStr) with
    | .error ε => .error ε
    | .ok signature =>
      let sep := if url.data.contains '?' then "&" else "?"
      .ok (url ++ sep ++ "Expires=" ++ toString (epochSeconds expire_at) ++
        "&Signature=" ++ asciiDecode (url_b64encode signature) ++
        "&Key-Pair-Id=" ++ key_id)

/-! ## Concrete test fixtures -/

/-- A concrete, honestly generated 364-bit RSA key pair (46-byte modulus,
the smallest size the SHA-1 padding admits). -/
def exampleKey : RSAKey where
  n := 16317457360704184027902093657253425940201836146112574671726092015985621127260109824854758097981529491859843493
  e := 65537
  d := 708143007920250902635532163157274297138879141638593686606309274015224099729929232473278540479967366884546033
  p := 3732143133424887663475569846948441533713524781866840397
  q := 4372141361505096139201930388008424138565471575444221369

/-- The wildcard resource the repository's `__main__` block uses. -/
def exampleResource : String :=
  "https://cdn.example.com/*"

/-- Spec §8 Example 1 expiry instant. -/
def exampleExpiry : Expiry :=
  ⟨2000000000, 0⟩

/-- The same instant one second later. -/
def exampleExpiry2 : Expiry :=
  ⟨2000000001, 0⟩

/-- Policy bytes for the example resource at `exampleExpiry`. -/
def examplePolicyBytes1 : List Nat :=
  utf8Encode (policy_json exampleResource exampleExpiry)

/-- Policy bytes for the example resource at `exampleExpiry2`. -/
def examplePolicyBytes2 : List Nat :=
  utf8Encode (policy_json exampleResource exampleExpiry2)

/-- The key identifier used by the repository's `__main__` block. -/
def exampleKeyId : String :=
  "K3M7WLN23IL48K"

/-- An exact single-object URL for the canned signed-URL form. -/
def exampleObjectUrl : String :=
  "https://cdn.example.com/index.html"

/-- The signature bytes `rsa_sign` produces under `exampleKey`
(the key is large enough, so signing never fails). -/
def sigOf (m : List Nat) : List Nat :=
  i2osp (byteSize exampleKey.n) (powMod (emOf exampleKey m) exampleKey.d exampleKey.n)

/-- The cookie mapping issued for the example inputs. -/
def exampleCookies : List (String × String) :=
  match generate_signed_cookies exampleKey exampleKeyId exampleResource exampleExpiry with
  | .ok m => m
  | .error _ => []

/-- The dynamically-typed value issued for the example inputs. -/
def exampleSignedPy : PyVal :=
  match generate_signed_cookies_py exampleKey exampleKeyId exampleResource exampleExpiry with
  | .ok v => v
  | .error _ => .str ""

/-- The canned signed URL issued for the example inputs. -/
def examplePresigned : String :=
  match generate_presigned_url exampleKey exampleKeyId exampleObjectUrl exampleExpiry with
  | .ok u => u
  | .error _ => ""

/-- What C2 asserts of a successfully issued cookie mapping `m`: the
signature was computed over the exact UTF-8 policy bytes, policy and
signature bytes were encoded independently, and the policy cookie decodes
back to the very bytes that were signed. -/
def SignedOverExactBytes (key : RSAKey) (url : String) (expire_at : Expiry)
    (m : List (String × String)) : Prop :=
  ∃ p sig, build_policy url expire_at = .ok p ∧
    rsa_sign key (utf8Encode p) = .ok sig ∧
    m.lookup "CloudFront-Policy" = some (asciiDecode (url_b64encode (utf8Encode p))) ∧
    m.lookup "CloudFront-Signature" = some (asciiDecode (url_b64encode sig)) ∧
    urlB64decode (url_b64encode (utf8Encode p)) = utf8Encode p

/-- What C8 asserts of a successfully issued canned signed URL `res`: the
original URL with the `Expires`, encoded `Signature` and raw `Key-Pair-Id`
query parameters appended, and no explicit `Policy` parameter. -/
def CannedUrlShape (key : RSAKey) (key_id url : String) (expire_at : Expiry)
    (res : String) : Prop :=
  ∃ p sig, build_policy url expire_at = .ok p ∧
    rsa_sign key (utf8Encode p) = .ok sig ∧
    res = url ++ (if url.data.contains '?' then "&" else "?") ++
      "Expires=" ++ toString (epochSeconds expire_at) ++
      "&Signature=" ++ asciiDecode (url_b64encode sig) ++
      "&Key-Pair-Id=" ++ key_id

/-! ## Arithmetic and byte-sequence lemmas -/

theorem i2osp_length (k v : Nat) : (i2osp k v).length = k := by
  induction k generalizing v with
  | zero => rfl
  | succ k ih => simp [i2osp, ih]

theorem i2osp_mem_lt (k v : Nat) : ∀ b ∈ i2osp k v, b < 256 := by
  induction k generalizing v with
  | zero => simp [i2osp]
  | succ k ih =>
    intro b hb
    simp only [i2osp, List.mem_append, List.mem_singleton] at hb
    rcases hb with hb | hb
    · exact ih _ b hb
    · omega

theorem i2osp_inj (k v1 v2 : Nat) (h1 : v1 < 256 ^ k) (h2 : v2 < 256 ^ k)
    (heq : i2osp k v1 = i2osp k v2) : v1 = v2 := by
  induction k generalizing v1 v2 with
  | zero => simp [pow_zero, Nat.lt_one_iff] at h1 h2; omega
  | succ k ih =>
    simp only [i2osp] at heq
    have hlen : (i2osp k (v1 / 256)).length = (i2osp k (v2 / 256)).length := by
      simp [i2osp_length]
    obtain ⟨hpre, hlast⟩ := List.append_inj heq hlen
    have hm : v1 % 256 = v2 % 256 := by simpa using hlast
    have hd : v1 / 256 = v2 / 256 := by
      refine ih _ _ ?_ ?_ hpre
      · exact Nat.div_lt_of_lt_mul (by rw [pow_succ] at h1; omega)
      · exact Nat.div_lt_of_lt_mul (by rw [pow_succ] at h2; omega)
    omega

theorem os2ip_lt (l : List Nat) (h : ∀ b ∈ l, b < 256) :
    os2ip l < 256 ^ l.length := by
  induction l with
  | nil => simp [os2ip]
  | cons b rest ih =>
    have hb : b < 256 := h b (by simp)
    have hr : os2ip rest < 256 ^ rest.length := ih (fun x hx => h x (by simp [hx]))
    calc b * 256 ^ rest.length + os2ip rest
        < (b + 1) * 256 ^ rest.length := by
          have := Nat.pos_pow_of_pos rest.length (show 0 < 256 by omega)
          nlinarith
      _ ≤ 256 * 256 ^ rest.length := Nat.mul_le_mul_right _ (by omega)
      _ = 256 ^ (b :: rest).length := by rw [List.length_cons, pow_succ]; ring

theorem os2ip_inj (l1 l2 : List Nat) (hlen : l1.length = l2.length)
    (hb1 : ∀ b ∈ l1, b < 256) (hb2 : ∀ b ∈ l2, b < 256)
    (heq : os2ip l1 = os2ip l2) : l1 = l2 := by
  induction l1 generalizing l2 with
  | nil => cases l2 with
    | nil => rfl
    | cons x xs => simp at hlen
  | cons x xs ih =>
    cases l2 with
    | nil => simp at hlen
    | cons y ys =>
      have hxys : xs.length = ys.length := by
        simp only [List.length_cons] at hlen; omega
      simp only [os2ip, hxys] at heq
      have hm : 0 < 256 ^ ys.length := Nat.pos_pow_of_pos _ (by omega)
      have hrx : os2ip xs < 256 ^ ys.length := by
        rw [← hxys]; exact os2ip_lt xs (fun b hb => hb1 b (by simp [hb]))
      have hry : os2ip ys < 256 ^ ys.length := os2ip_lt ys (fun b hb => hb2 b (by simp [hb]))
      have hx : x = y := by
        have hdx : (x * 256 ^ ys.length + os2ip xs) / 256 ^ ys.length
            = (y * 256 ^ ys.length + os2ip ys) / 256 ^ ys.length := by rw [heq]
        rw [Nat.mul_comm x, Nat.mul_comm y, Nat.mul_add_div hm, Nat.mul_add_div hm,
          Nat.div_eq_of_lt hrx, Nat.div_eq_of_lt hry] at hdx
        omega
      have ht : os2ip xs = os2ip ys := by
        subst hx; omega
      rw [hx, ih ys hxys (fun b hb => hb1 b (by simp [hb]))
        (fun b hb => hb2 b (by simp [hb])) ht]

theorem byteSizeAux_spec (fuel : Nat) : ∀ n, n ≤ fuel → n < 256 ^ byteSizeAux fuel n := by
  induction fuel with
  | zero => intro n hn; interval_cases n; simp [byteSizeAux]
  | succ fuel ih =>
    intro n hn
    by_cases h : n < 256
    · simp only [byteSizeAux, h, if_true, pow_one]
    · have hrec : n / 256 ≤ fuel := by omega
      have hb := ih (n / 256) hrec
      simp only [byteSizeAux, h, if_false]
      calc n < (n / 256 + 1) * 256 := by omega
        _ ≤ 256 ^ byteSizeAux fuel (n / 256) * 256 :=
            Nat.mul_le_mul_right _ (by omega)
        _ = 256 ^ (byteSizeAux fuel (n / 256) + 1) := by rw [pow_succ]

theorem byteSize_spec (n : Nat) : n < 256 ^ byteSize n :=
  byteSizeAux_spec n n le_rfl

theorem byteSize_zero : byteSize 0 = 1 := rfl

theorem powModAux_lt (fuel : Nat) : ∀ b e n, 0 < n → powModAux fuel b e n < n := by
  induction fuel with
  | zero => intro b e n hn; exact Nat.mod_lt _ hn
  | succ fuel ih =>
    intro b e n hn
    simp only [powModAux]
    split
    · exact Nat.mod_lt _ hn
    · split
      · exact Nat.mod_lt _ hn
      · exact ih _ _ _ hn

theorem powMod_lt (b e n : Nat) (hn : 0 < n) : powMod b e n < n :=
  powModAux_lt e b e n hn

theorem sha1_length (m : List Nat) : (sha1 m).length = 20 := by
  simp [sha1, i2osp_length]

theorem sha1_mem_lt (m : List Nat) : ∀ b ∈ sha1 m, b < 256 := by
  intro b hb
  simp only [sha1, List.mem_append] at hb
  rcases hb with ((((hb | hb) | hb) | hb) | hb) <;> exact i2osp_mem_lt _ _ b hb

theorem padForSigning_length (c : List Nat) (k : Nat) (h : c.length + 3 ≤ k) :
    (padForSigning c k).length = k := by
  simp [padForSigning]; omega

theorem padForSigning_mem (c : List Nat) (k : Nat) (hc : ∀ b ∈ c, b < 256) :
    ∀ b ∈ padForSigning c k, b < 256 := by
  intro b hb
  simp only [padForSigning, List.mem_append, List.mem_cons, List.mem_replicate,
    List.mem_singleton, List.not_mem_nil, or_false] at hb
  rcases hb with (((hb | hb) | ⟨-, hb⟩) | hb) | hb <;> first | omega | exact hc b hb

theorem padForSigning_inj (c1 c2 : List Nat) (k : Nat) (hlen : c1.length = c2.length)
    (heq : padForSigning c1 k = padForSigning c2 k) : c1 = c2 := by
  simp only [padForSigning, hlen, List.cons_append, List.nil_append,
    List.cons.injEq, true_and] at heq
  have := List.append_cancel_left heq
  simpa using this

/-! ## Base64 lemmas -/

theorem alph_mem : ∀ x, x < 64 → alph x ∈ stdAlphabet := by decide

theorem alph_ne_61 : ∀ x, x < 64 → alph x ≠ 61 := by decide

theorem alphInv_alph : ∀ x, x < 64 → alphInv (alph x) = x := by decide

theorem sub3_alphabet : ∀ c ∈ 61 :: stdAlphabet,
    sub3Inv (sub3 c) = c ∧ (sub3 c = 45 ↔ c = 43) ∧ (sub3 c = 95 ↔ c = 61) ∧
    (sub3 c = 126 ↔ c = 47) ∧ sub3 c ≠ 43 ∧ sub3 c ≠ 61 ∧ sub3 c ≠ 47 := by
  decide

theorem b64encode_mem : ∀ bs : List Nat, (∀ b ∈ bs, b < 256) →
    ∀ c ∈ b64encode bs, c = 61 ∨ c ∈ stdAlphabet := by
  intro bs
  induction bs using b64encode.induct with
  | case1 => simp [b64encode]
  | case2 a =>
    intro h c hc
    have ha : a < 256 := h a (by simp)
    simp only [b64encode, List.mem_cons, List.not_mem_nil, or_false] at hc
    rcases hc with rfl | rfl | rfl | rfl
    · exact Or.inr (alph_mem _ (by omega))
    · exact Or.inr (alph_mem _ (by omega))
    · exact Or.inl rfl
    · exact Or.inl rfl
  | case3 a b =>
    intro h c hc
    have ha : a < 256 := h a (by simp)
    have hb : b < 256 := h b (by simp)
    simp only [b64encode, List.mem_cons, List.not_mem_nil, or_false] at hc
    rcases hc with rfl | rfl | rfl | rfl
    · exact Or.inr (alph_mem _ (by omega))
    · exact Or.inr (alph_mem _ (by omega))
    · exact Or.inr (alph_mem _ (by omega))
    · exact Or.inl rfl
  | case4 a b c rest ih =>
    intro h d hd
    have ha : a < 256 := h a (by simp)
    have hb : b < 256 := h b (by simp)
    have hc : c < 256 := h c (by simp)
    simp only [b64encode, List.mem_cons] at hd
    rcases hd with rfl | rfl | rfl | rfl | hd
    · exact Or.inr (alph_mem _ (by omega))
    · exact Or.inr (alph_mem _ (by omega))
    · exact Or.inr (alph_mem _ (by omega))
    · exact Or.inr (alph_mem _ (by omega))
    · exact ih (fun x hx => h x (by simp [hx])) d hd

theorem map_id_on (l : List Nat) (f : Nat → Nat) (h : ∀ c ∈ l, f c = c) :
    l.map f = l := by
  induction l with
  | nil => rfl
  | cons x xs ih =>
    simp only [List.map_cons, h x (by simp), List.cons.injEq, true_and]
    exact ih (fun c hc => h c (by simp [hc]))

theorem url_b64encode_eq_map (data : List Nat) :
    url_b64encode data = (b64encode data).map sub3 := by
  simp only [url_b64encode, List.map_map]
  rfl

theorem decHead1 (a : Nat) : a / 4 * 4 + a % 4 * 16 / 16 = a := by
  rw [show a % 4 * 16 = 16 * (a % 4) by ring, Nat.mul_div_cancel_left _ (by omega)]
  omega

theorem decHead (a v : Nat) (hv : v < 16) :
    a / 4 * 4 + (a % 4 * 16 + v) / 16 = a := by
  rw [show a % 4 * 16 + v = 16 * (a % 4) + v by ring, Nat.mul_add_div (by omega),
    Nat.div_eq_of_lt hv]
  omega

theorem decMid1 (a b : Nat) (hb : b < 256) :
    (a % 4 * 16 + b / 16) % 16 * 16 + b % 16 * 4 / 4 = b := by
  rw [show a % 4 * 16 + b / 16 = 16 * (a % 4) + b / 16 by ring, Nat.mul_add_mod,
    show b % 16 * 4 = 4 * (b % 16) by ring, Nat.mul_div_cancel_left _ (by omega),
    Nat.mod_eq_of_lt (show b / 16 < 16 by omega)]
  omega

theorem decMid (a b w : Nat) (hb : b < 256) (hw : w < 4) :
    (a % 4 * 16 + b / 16) % 16 * 16 + (b % 16 * 4 + w) / 4 = b := by
  rw [show a % 4 * 16 + b / 16 = 16 * (a % 4) + b / 16 by ring, Nat.mul_add_mod,
    show b % 16 * 4 + w = 4 * (b % 16) + w by ring, Nat.mul_add_div (by omega),
    Nat.div_eq_of_lt hw, Nat.mod_eq_of_lt (show b / 16 < 16 by omega)]
  omega

theorem decLast (b c : Nat) (hc : c < 256) :
    (b % 16 * 4 + c / 64) % 4 * 64 + c % 64 = c := by
  rw [show b % 16 * 4 + c / 64 = 4 * (b % 16) + c / 64 by ring, Nat.mul_add_mod,
    Nat.mod_eq_of_lt (show c / 64 < 4 by omega)]
  omega

theorem b64decode_b64encode : ∀ bs : List Nat, (∀ b ∈ bs, b < 256) →
    b64decode (b64encode bs) = bs := by
  intro bs
  induction bs using b64encode.induct with
  | case1 => intro _; rfl
  | case2 a =>
    intro h
    have ha : a < 256 := h a (by simp)
    simp only [b64encode, b64decode, if_pos rfl,
      alphInv_alph _ (show a / 4 < 64 by omega),
      alphInv_alph _ (show a % 4 * 16 < 64 by omega)]
    rw [decHead1 a]
    simp
  | case3 a b =>
    intro h
    have ha : a < 256 := h a (by simp)
    have hb : b < 256 := h b (by simp)
    simp only [b64encode, b64decode, if_pos rfl,
      if_neg (alph_ne_61 _ (show b % 16 * 4 < 64 by omega)),
      alphInv_alph _ (show a / 4 < 64 by omega),
      alphInv_alph _ (show a % 4 * 16 + b / 16 < 64 by omega),
      alphInv_alph _ (show b % 16 * 4 < 64 by omega)]
    rw [decHead a (b / 16) (by omega), decMid1 a b hb]
    simp
  | case4 a b c rest ih =>
    intro h
    have ha : a < 256 := h a (by simp)
    have hb : b < 256 := h b (by simp)
    have hc : c < 256 := h c (by simp)
    have hrest := ih (fun x hx => h x (by simp [hx]))
    simp only [b64encode, b64decode,
      if_neg (alph_ne_61 _ (show c % 64 < 64 by omega)),
      alphInv_alph _ (show a / 4 < 64 by omega),
      alphInv_alph _ (show a % 4 * 16 + b / 16 < 64 by omega),
      alphInv_alph _ (show b % 16 * 4 + c / 64 < 64 by omega),
      alphInv_alph _ (show c % 64 < 64 by omega), hrest]
    rw [decHead a (b / 16) (by omega), decMid a b (c / 64) hb (by omega),
      decLast b c hc]

theorem urlB64decode_url_b64encode (bs : List Nat) (h : ∀ b ∈ bs, b < 256) :
    urlB64decode (url_b64encode bs) = bs := by
  rw [urlB64decode, url_b64encode_eq_map, List.map_map]
  have hid : (b64encode bs).map (sub3Inv ∘ sub3) = b64encode bs := by
    refine map_id_on _ _ (fun c hc => ?_)
    have hmem : c ∈ 61 :: stdAlphabet := by
      rcases b64encode_mem bs h c hc with rfl | hm
      · exact List.mem_cons_self _ _
      · exact List.mem_cons_of_mem _ hm
    exact (sub3_alphabet c hmem).1
  rw [hid]
  exact b64decode_b64encode bs h

/-! ## UTF-8 and signer lemmas -/

theorem char_toNat_lt (c : Char) : c.toNat < 1114112 := by
  have h : c.val.toNat < 55296 ∨ 57344 ≤ c.val.toNat ∧ c.val.toNat < 1114112 :=
    c.valid
  rcases h with h | ⟨_, h⟩
  · exact Nat.lt_trans h (by norm_num)
  · exact h

theorem utf8Char_lt (c : Char) : ∀ b ∈ utf8Char c, b < 256 := by
  intro b hb
  have hc : c.toNat < 1114112 := char_toNat_lt c
  simp only [utf8Char] at hb
  split_ifs at hb <;>
    simp only [List.mem_cons, List.not_mem_nil, or_false] at hb
  · omega
  · rcases hb with rfl | rfl <;> omega
  · rcases hb with rfl | rfl | rfl <;> omega
  · rcases hb with rfl | rfl | rfl | rfl <;> omega

theorem utf8Chars_lt : ∀ cs : List Char, ∀ b ∈ utf8Chars cs, b < 256 := by
  intro cs
  induction cs with
  | nil => simp [utf8Chars]
  | cons c cs ih =>
    intro b hb
    simp only [utf8Chars, List.mem_append] at hb
    rcases hb with hb | hb
    · exact utf8Char_lt c b hb
    · exact ih b hb

theorem utf8Encode_lt (s : String) : ∀ b ∈ utf8Encode s, b < 256 :=
  utf8Chars_lt s.data

theorem cleartext_length (m : List Nat) : (sha1ASN1 ++ sha1 m).length = 35 := by
  simp [sha1ASN1, sha1_length]

theorem rsa_sign_eq (key : RSAKey) (m : List Nat) :
    rsa_sign key m = if byteSize key.n < 46 then .error .invalidKey
      else .ok (i2osp (byteSize key.n) (powMod (emOf key m) key.d key.n)) := by
  simp only [rsa_sign, sign_hash, emOf, cleartext_length]

theorem rsa_sign_ok (key : RSAKey) (m : List Nat) (hk : 46 ≤ byteSize key.n) :
    rsa_sign key m = .ok (i2osp (byteSize key.n) (powMod (emOf key m) key.d key.n)) := by
  rw [rsa_sign_eq, if_neg (by omega)]

theorem byteSize_exampleKey : byteSize exampleKey.n = 46 := by decide

theorem rsa_sign_exampleKey (m : List Nat) : rsa_sign exampleKey m = .ok (sigOf m) := by
  rw [rsa_sign_ok exampleKey m (le_of_eq byteSize_exampleKey.symm)]
  rfl

theorem sigOf_length (m : List Nat) : (sigOf m).length = 46 := by
  rw [sigOf, i2osp_length, byteSize_exampleKey]

theorem sigOf_lt (m : List Nat) : ∀ b ∈ sigOf m, b < 256 := by
  intro b hb
  unfold sigOf at hb
  exact i2osp_mem_lt _ _ b hb

theorem sha1ASN1_lt : ∀ b ∈ sha1ASN1, b < 256 := by decide

/-! ## Claim theorems -/

/-- C1: whenever `generate_signed_cookies` succeeds, the returned mapping
has exactly three entries with exactly the keys `CloudFront-Policy`,
`CloudFront-Signature` and `CloudFront-Key-Pair-Id`; the policy and
signature values are the encoded policy and encoded signature, and the
key-pair-id value is the key identifier passed through raw and
unmodified. -/
theorem cookie_set_completeness (key : RSAKey) (kid url : String) (t : Expiry)
    (m : List (String × String))
    (h : generate_signed_cookies key kid url t = .ok m) :
    m.length = 3 ∧
    m.map Prod.fst =
      ["CloudFront-Policy", "CloudFront-Signature", "CloudFront-Key-Pair-Id"] ∧
    ∃ p sig, build_policy url t = .ok p ∧ rsa_sign key (utf8Encode p) = .ok sig ∧
      m = [("CloudFront-Policy", asciiDecode (url_b64encode (utf8Encode p))),
           ("CloudFront-Signature", asciiDecode (url_b64encode sig)),
           ("CloudFront-Key-Pair-Id", kid)] := by
  simp only [generate_signed_cookies] at h
  split at h
  · simp at h
  · next p hbp =>
    split at h
    · simp at h
    · next sig hs =>
      simp only [Except.ok.injEq] at h
      subst h
      exact ⟨rfl, rfl, p, sig, hbp, hs, rfl⟩

/-- C1 witness: the example issuance succeeds and has three entries. -/
theorem cookie_set_completeness_witness : exampleCookies.length = 3 :=
  (cookie_set_completeness exampleKey exampleKeyId exampleResource exampleExpiry
    exampleCookies (by rfl)).1

/-- C2: whenever `generate_signed_cookies` succeeds, the signature was
computed over the exact UTF-8 policy bytes before any encoding, the policy
and signature bytes are encoded independently, and the bytes that decode
from the policy cookie value are identical to the signed bytes. -/
theorem signature_over_exact_policy_bytes (key : RSAKey) (kid url : String)
    (t : Expiry) (m : List (String × String))
    (h : generate_signed_cookies key kid url t = .ok m) :
    SignedOverExactBytes key url t m := by
  simp only [generate_signed_cookies] at h
  split at h
  · simp at h
  · next p hbp =>
    split at h
    · simp at h
    · next sig hs =>
      simp only [Except.ok.injEq] at h
      subst h
      refine ⟨p, sig, hbp, hs, rfl, rfl, ?_⟩
      exact urlB64decode_url_b64encode _ (utf8Encode_lt p)

/-- C2 witness: the property holds of the example issuance. -/
theorem signature_over_exact_policy_bytes_witness :
    SignedOverExactBytes exampleKey exampleResource exampleExpiry exampleCookies :=
  signature_over_exact_policy_bytes exampleKey exampleKeyId exampleResource
    exampleExpiry exampleCookies (by rfl)

/-- C3: for any byte sequence, the transport-safe encoder's output is the
standard base64 encoding with the three substitutions applied and nothing
else changed; it contains no `+` (43), `=` (61) or `/` (47), and every
`-` (45), `_` (95), `~` (126) stands exactly at the position of a `+`,
`=`, `/` respectively in the base64 encoding. -/
theorem encoder_alphabet (bs : List Nat) (h : ∀ b ∈ bs, b < 256) :
    url_b64encode bs = (b64encode bs).map sub3 ∧
    (∀ c ∈ url_b64encode bs, c ≠ 43 ∧ c ≠ 61 ∧ c ≠ 47) ∧
    (url_b64encode bs).length = (b64encode bs).length ∧
    ∀ i (h1 : i < (url_b64encode bs).length) (h2 : i < (b64encode bs).length),
      ((url_b64encode bs).get ⟨i, h1⟩ = 45 ↔ (b64encode bs).get ⟨i, h2⟩ = 43) ∧
      ((url_b64encode bs).get ⟨i, h1⟩ = 95 ↔ (b64encode bs).get ⟨i, h2⟩ = 61) ∧
      ((url_b64encode bs).get ⟨i, h1⟩ = 126 ↔ (b64encode bs).get ⟨i, h2⟩ = 47) := by
  have hmap := url_b64encode_eq_map bs
  have hmem : ∀ c ∈ b64encode bs, c ∈ 61 :: stdAlphabet := by
    intro c hc
    rcases b64encode_mem bs h c hc with rfl | hm
    · exact List.mem_cons_self _ _
    · exact List.mem_cons_of_mem _ hm
  refine ⟨hmap, ?_, ?_, ?_⟩
  · intro c hc
    rw [hmap] at hc
    rcases List.mem_map.mp hc with ⟨c', hc', rfl⟩
    have hp := sub3_alphabet c' (hmem c' hc')
    exact ⟨hp.2.2.2.2.1, hp.2.2.2.2.2.1, hp.2.2.2.2.2.2⟩
  · rw [hmap, List.length_map]
  · intro i h1 h2
    have hget : (url_b64encode bs).get ⟨i, h1⟩
        = sub3 ((b64encode bs).get ⟨i, h2⟩) := by
      simp only [hmap, List.get_eq_getElem, List.getElem_map]
    have hp := sub3_alphabet ((b64encode bs).get ⟨i, h2⟩)
      (hmem _ (List.get_mem (b64encode bs) i h2))
    rw [hget]
    exact ⟨hp.2.1, hp.2.2.1, hp.2.2.2.1⟩

/-- C3 witness: the map characterization at a concrete byte sequence
whose base64 encoding contains `/` and padding `=`. -/
theorem encoder_alphabet_witness :
    url_b64encode [255, 255, 255, 255]
      = (b64encode [255, 255, 255, 255]).map sub3 :=
  (encoder_alphabet [255, 255, 255, 255] (by decide)).1

/-- C4: `build_policy` is deterministic — its output depends only on the
resource string and the expiry's whole epoch seconds, byte for byte. -/
theorem build_policy_deterministic (r : String) (e1 e2 : Expiry)
    (h : epochSeconds e1 = epochSeconds e2) :
    build_policy r e1 = build_policy r e2 ∧
    (build_policy r e1).map utf8Encode = (build_policy r e2).map utf8Encode := by
  have hp : build_policy r e1 = build_policy r e2 := by
    simp only [build_policy, policy_json, h]
  exact ⟨hp, by rw [hp]⟩

/-- C4 witness: two expiry instants with the same whole second but
different microseconds give byte-identical policies. -/
theorem build_policy_deterministic_witness :
    build_policy exampleResource ⟨2000000000, 0⟩
      = build_policy exampleResource ⟨2000000000, 999999⟩ :=
  (build_policy_deterministic exampleResource ⟨2000000000, 0⟩
    ⟨2000000000, 999999⟩ (by decide)).1

/-- C5: for the empty resource string, the policy-building step fails
with `InvalidResource` (for every expiry) rather than returning policy
bytes. -/
theorem build_policy_empty_resource (t : Expiry) :
    build_policy "" t = .error .invalidResource := rfl

/-- C6: the signer is a hash-then-sign computation — the message is
hashed with SHA-1 (through `sign_hash`, so the signature depends on the
message only through its digest) and the digest is padded with the
deterministic EMSA-PKCS1-v1_5 scheme and raised to the private exponent;
being a function of key and message, equal inputs give equal signature
bytes. -/
theorem signer_hash_then_sign (key : RSAKey) (m : List Nat) :
    rsa_sign key m = sign_hash key (sha1 m) ∧
    rsa_sign key m = (if byteSize key.n < 46 then .error .invalidKey
      else .ok (i2osp (byteSize key.n)
        (powMod (os2ip (padForSigning (sha1ASN1 ++ sha1 m) (byteSize key.n)))
          key.d key.n))) :=
  ⟨rfl, by rw [rsa_sign_eq]; rfl⟩

/-- C7 counterexample: it is not true that, for the fixed example key,
any two distinct messages produce different signatures — the signature
space is finite (46 bytes) while the message space is infinite, so some
two distinct messages collide. -/
theorem signature_binding_counterexample :
    ¬ ∀ m1 m2 : List Nat, m1 ≠ m2 →
      rsa_sign exampleKey m1 ≠ rsa_sign exampleKey m2 := by
  intro hclaim
  have hf := Finite.exists_ne_map_eq_of_infinite
    (fun i : ℕ => (fun j : Fin 46 =>
      (⟨(sigOf (List.replicate i 0)).get
          ⟨j.val, by rw [sigOf_length]; exact j.isLt⟩,
        sigOf_lt _ _ (List.get_mem _ _ _)⟩ : Fin 256)))
  obtain ⟨i, j, hij, heq⟩ := hf
  have hsig : sigOf (List.replicate i 0) = sigOf (List.replicate j 0) := by
    apply List.ext_get (by rw [sigOf_length, sigOf_length])
    intro k h1 h2
    have hk := congrFun heq ⟨k, by rw [sigOf_length] at h1; exact h1⟩
    simp only [Fin.mk.injEq] at hk
    exact hk
  exact hclaim (List.replicate i 0) (List.replicate j 0)
    (fun heq2 => hij (by simpa using congrArg List.length heq2))
    (by rw [rsa_sign_exampleKey, rsa_sign_exampleKey, hsig])

/-- C7 amended: for key material on which the public exponent inverts the
private-key operation at the two padded digests (true of every working
RSA key) and a modulus large enough to sign, any two messages whose SHA-1
digests differ produce different signatures. -/
theorem signature_binding_amended (key : RSAKey) (m1 m2 : List Nat)
    (hk : 46 ≤ byteSize key.n)
    (h1 : powMod (powMod (emOf key m1) key.d key.n) key.e key.n = emOf key m1)
    (h2 : powMod (powMod (emOf key m2) key.d key.n) key.e key.n = emOf key m2)
    (hsha : sha1 m1 ≠ sha1 m2) :
    rsa_sign key m1 ≠ rsa_sign key m2 := by
  intro heq
  have hn0 : 0 < key.n := by
    rcases Nat.eq_zero_or_pos key.n with h0 | h0
    · rw [h0, byteSize_zero] at hk; omega
    · exact h0
  rw [rsa_sign_ok key m1 hk, rsa_sign_ok key m2 hk] at heq
  simp only [Except.ok.injEq] at heq
  have hs : powMod (emOf key m1) key.d key.n
      = powMod (emOf key m2) key.d key.n := by
    refine i2osp_inj _ _ _ ?_ ?_ heq
    · exact lt_trans (powMod_lt _ _ _ hn0) (byteSize_spec key.n)
    · exact lt_trans (powMod_lt _ _ _ hn0) (byteSize_spec key.n)
  have hem : emOf key m1 = emOf key m2 := by rw [← h1, ← h2, hs]
  have hpad : padForSigning (sha1ASN1 ++ sha1 m1) (byteSize key.n)
      = padForSigning (sha1ASN1 ++ sha1 m2) (byteSize key.n) := by
    refine os2ip_inj _ _ ?_ ?_ ?_ hem
    · rw [padForSigning_length _ _ (by rw [cleartext_length]; omega),
        padForSigning_length _ _ (by rw [cleartext_length]; omega)]
    · refine padForSigning_mem _ _ ?_
      intro b hb
      rcases List.mem_append.mp hb with hb | hb
      · exact sha1ASN1_lt b hb
      · exact sha1_mem_lt m1 b hb
    · refine padForSigning_mem _ _ ?_
      intro b hb
      rcases List.mem_append.mp hb with hb | hb
      · exact sha1ASN1_lt b hb
      · exact sha1_mem_lt m2 b hb
  have hclear := padForSigning_inj _ _ _
    (by rw [cleartext_length, cleartext_length]) hpad
  exact hsha (List.append_cancel_left hclear)

/-- C7 witness: under the example key, the example policy and the same
policy with expiry shifted by one second (whose digests differ) get
different signatures. -/
theorem signature_binding_witness :
    rsa_sign exampleKey examplePolicyBytes1
      ≠ rsa_sign exampleKey examplePolicyBytes2 :=
  signature_binding_amended exampleKey examplePolicyBytes1 examplePolicyBytes2
    (by decide) (by decide) (by decide) (by decide)

/-- C8: whenever the canned-form signed URL is issued, it is the original
URL with exactly the `Expires` (raw epoch seconds), encoded `Signature`
and raw `Key-Pair-Id` query parameters appended, with no explicit
`Policy` parameter. -/
theorem presigned_url_canned_shape (key : RSAKey) (kid url : String)
    (t : Expiry) (res : String)
    (h : generate_presigned_url key kid url t = .ok res) :
    CannedUrlShape key kid url t res := by
  simp only [generate_presigned_url] at h
  split at h
  · simp at h
  · next p hbp =>
    split at h
    · simp at h
    · next sig hs =>
      simp only [Except.ok.injEq] at h
      exact ⟨p, sig, hbp, hs, h.symm⟩

/-- C8 witness: the shape holds of the example canned signed URL. -/
theorem presigned_url_canned_shape_witness :
    CannedUrlShape exampleKey exampleKeyId exampleObjectUrl exampleExpiry
      examplePresigned :=
  presigned_url_canned_shape exampleKey exampleKeyId exampleObjectUrl
    exampleExpiry examplePresigned (by rfl)

/-- C9: both assembler operations fail exactly when an inner component
fails, and then surface exactly the inner component's error — no new
error kinds, no retry, and no partial credential (an error result carries
no mapping or URL). -/
theorem failure_propagation (key : RSAKey) (kid url : String) (t : Expiry)
    (ε : Err) :
    (generate_signed_cookies key kid url t = .error ε ↔
      build_policy url t = .error ε ∨
      ∃ p, build_policy url t = .ok p ∧
        rsa_sign key (utf8Encode p) = .error ε) ∧
    (generate_presigned_url key kid url t = .error ε ↔
      build_policy url t = .error ε ∨
      ∃ p, build_policy url t = .ok p ∧
        rsa_sign key (utf8Encode p) = .error ε) := by
  rcases hbp : build_policy url t with ε' | p
  · simp [generate_signed_cookies, generate_presigned_url, hbp]
  · rcases hs : rsa_sign key (utf8Encode p) with ε'' | sig
    · simp [generate_signed_cookies, generate_presigned_url, hbp, hs]
    · simp [generate_signed_cookies, generate_presigned_url, hbp, hs]

/-- C10: despite the source's `-> str` annotation, every successful call
of the dynamically-typed `generate_signed_cookies` returns the
string-keyed, string-valued dictionary (the three-entry cookie mapping),
never a plain string. -/
theorem returns_dict_not_str (key : RSAKey) (kid url : String) (t : Expiry)
    (v : PyVal) (h : generate_signed_cookies_py key kid url t = .ok v) :
    (∃ entries, generate_signed_cookies key kid url t = .ok entries ∧
      v = .dict entries) ∧ ¬∃ s, v = .str s := by
  simp only [generate_signed_cookies_py] at h
  split at h
  · simp at h
  · next m hm =>
    simp only [Except.ok.injEq] at h
    subst h
    refine ⟨⟨m, hm, rfl⟩, ?_⟩
    rintro ⟨s, hs⟩
    cases hs

/-- C10 witness: the example issuance returns the dictionary value. -/
theorem returns_dict_not_str_witness :
    (∃ entries, generate_signed_cookies exampleKey exampleKeyId
        exampleResource exampleExpiry = .ok entries ∧
      exampleSignedPy = .dict entries) ∧
    ¬∃ s, exampleSignedPy = .str s :=
  returns_dict_not_str exampleKey exampleKeyId exampleResource exampleExpiry
    exampleSignedPy (by rfl)
